import Mathlib

/-!
Shallow embedding of `pacleaner.py`: the package identity model with its
equality and comparison operators, the cache and installed catalog parsers,
the selection engine (`uninstalled_packages`, `older_than`, `find_files`) and
the deletion loop (`remove_packages`), together with theorems settling the
spec's claims about them.

Python conventions carried over: strings compare lexicographically by code
point; a raised exception is modelled as `none`; machine integers do not occur
(all counts are small natural numbers).
-/

set_option maxRecDepth 8000

namespace Pacleaner

/-- Recognized package-archive extensions (`EXTENSIONS` in the source). -/
def EXTENSIONS : List String := ["pkg.tar.xz", "pkg.tar.gzip"]

/-- Default retention count (`NR_OF_PKG` in the source). -/
def NR_OF_PKG : Nat := 2

/-- Identity fields shared by every package representation (the `Package`
base class): `name`, `version`, `pkg_version` (the release number) and
`arch`. -/
structure Package where
  name : String
  version : String
  pkg_version : String
  arch : String
deriving DecidableEq, Repr

/-- An installed-package record (`InstalledPkg`) carries exactly the four
identity fields. -/
abbrev InstalledPkg := Package

/-- `Package.__eq__`: true iff all four fields match. -/
def pkgEq (a b : Package) : Bool :=
  a.name == b.name && a.version == b.version &&
    a.pkg_version == b.pkg_version && a.arch == b.arch

/-- Python string `<` on character lists: lexicographic by code point, a
proper non-empty suffix making the longer string greater. -/
def strLtB : List Char → List Char → Bool
  | _, [] => false
  | [], _ :: _ => true
  | a :: as, b :: bs =>
    if a.toNat = b.toNat then strLtB as bs
    else decide (a.toNat < b.toNat)

/-- Python `s < t` on strings. -/
def pyStrLt (s t : String) : Bool :=
  strLtB s.data t.data

/-- `Package.__lt__`. The first branch executes `return false`, and `false`
is an unbound name in Python, so comparing equal values raises `NameError`:
modelled as `none`. Unequal values compare by `name`, then `version`, then
`pkg_version`, as plain strings. -/
def pkgLt (a b : Package) : Option Bool :=
  if pkgEq a b then none
  else if a.name = b.name then
    if a.version = b.version then some (pyStrLt a.pkg_version b.pkg_version)
    else some (pyStrLt a.version b.version)
  else some (pyStrLt a.name b.name)

/-- `Package.__le__`: `self.__eq__(other) or self.__lt__(other)`; Python `or`
short-circuits, so equal values never reach the broken `__lt__` branch. -/
def pkgLe (a b : Package) : Option Bool :=
  if pkgEq a b then some true else pkgLt a b

/-- `Package.__gt__`: `not self.__le__(other)`; an exception raised inside
`__le__` propagates. -/
def pkgGt (a b : Package) : Option Bool :=
  (pkgLe a b).map (fun x => !x)

/-- `Package.__ge__`: `self.__eq__(other) or self.__gt__(other)`. -/
def pkgGe (a b : Package) : Option Bool :=
  if pkgEq a b then some true else pkgGt a b

/-- Split a character list at every occurrence of `sep`; `acc` holds the
characters of the current field in reverse. -/
def splitCharAux (sep : Char) : List Char → List Char → List (List Char)
  | [], acc => [acc.reverse]
  | c :: cs, acc =>
    if c = sep then acc.reverse :: splitCharAux sep cs []
    else splitCharAux sep cs (c :: acc)

/-- Python `s.split(sep)` for a one-character separator (all splits, empty
fields preserved). -/
def pySplit (s : String) (sep : Char) : List String :=
  (splitCharAux sep s.data []).map (fun l => String.mk l)

/-- Join a list of strings with a separator. -/
def joinSep (sep : String) : List String → String
  | [] => ""
  | [x] => x
  | x :: y :: xs => x ++ sep ++ joinSep sep (y :: xs)

/-- Python `s.rsplit(sep, n)` for a one-character separator: at most `n`
splits, taken from the right; whatever is left of the rightmost `n`
separators stays joined as the first field. -/
def pyRsplit (s : String) (sep : Char) (n : Nat) : List String :=
  let parts := pySplit s sep
  if parts.length ≤ n + 1 then parts
  else joinSep (String.mk [sep]) (parts.take (parts.length - n)) :: parts.drop (parts.length - n)

/-- Python `s.split(sep, n)` for a one-character separator: at most `n`
splits, taken from the left. -/
def pySplitN (s : String) (sep : Char) (n : Nat) : List String :=
  let parts := pySplit s sep
  if parts.length ≤ n + 1 then parts
  else parts.take n ++ [joinSep (String.mk [sep]) (parts.drop n)]

/-- Python `str.endswith` for a plain string suffix. -/
def pyEndsWith (s suf : String) : Bool :=
  List.isSuffixOf suf.data s.data

/-- `os.path.join(path, filename)` for a relative second component. -/
def pathJoin (path filename : String) : String :=
  if path = "" then filename
  else if pyEndsWith path "/" then path ++ filename
  else path ++ "/" ++ filename

/-- A cache-file entry (`PkgFile`): the identity fields plus the on-disk
filename, the full path used for deletion, and the file extension. -/
structure PkgFile extends Package where
  filename : String
  fullpath : String
  file_ext : String
deriving DecidableEq, Repr

/-- `PkgFile.__init__`: `filename.rsplit('-', 3)` unpacked into
`name, version, pkg_version, rest`, then `rest.split('.', 1)` unpacked into
`arch, file_ext`. A failed unpacking raises `ValueError`, modelled as
`none`. -/
def mkPkgFile (filename path : String) : Option PkgFile :=
  match pyRsplit filename '-' 3 with
  | [n, v, pv, rest] =>
    match pySplitN rest '.' 1 with
    | [a, ext] =>
      some { name := n, version := v, pkg_version := pv, arch := a,
             filename := filename, fullpath := pathJoin path filename,
             file_ext := ext }
    | _ => none
  | _ => none

/-- `InstalledPkg.__init__`: `version.split('-')` unpacked into
`version, pkg_version`; fails (`ValueError`, modelled `none`) unless the
value holds exactly one hyphen. -/
def mkInstalledPkg (name version arch : String) : Option InstalledPkg :=
  match pySplit version '-' with
  | [v, pv] => some { name := name, version := v, pkg_version := pv, arch := arch }
  | _ => none

/-- Python `list.index`: position of the first occurrence; `ValueError`
(modelled `none`) when the element is absent. -/
def pyIndex (x : String) : List String → Option Nat
  | [] => none
  | y :: ys => if y = x then some 0 else (pyIndex x ys).map (fun n => n + 1)

/-- One iteration of `InstalledPkgList.__init__` over a `desc` file already
read into lines: take the line after each of the `%NAME%`, `%VERSION%` and
`%ARCH%` marker lines and build the record; a missing marker, a marker on the
last line, or a malformed version aborts (`none`). -/
def parseDesc (lines : List String) : Option InstalledPkg := do
  let ni ← pyIndex "%NAME%" lines
  let name ← lines[ni + 1]?
  let vi ← pyIndex "%VERSION%" lines
  let version ← lines[vi + 1]?
  let ai ← pyIndex "%ARCH%" lines
  let arch ← lines[ai + 1]?
  mkInstalledPkg name version arch

/-- Build one `PkgFile` per filename, left to right; the first parse failure
aborts the whole construction, as the uncaught `ValueError` would. -/
def buildAll (path : String) : List String → Option (List PkgFile)
  | [] => some []
  | f :: fs => do
    let p ← mkPkgFile f path
    let rest ← buildAll path fs
    some (p :: rest)

/-- `PkgFileList.__init__` over a directory listing: keep the names ending in
one of the `EXTENSIONS`, then parse each into a `PkgFile`. -/
def pkgFileList (files : List String) (path : String) : Option (List PkgFile) :=
  buildAll path (files.filter (fun f => EXTENSIONS.any (fun e => pyEndsWith f e)))

/-- `PkgList.names`. -/
def names (l : List InstalledPkg) : List String :=
  l.map (fun p => p.name)

/-- Loop of `PkgList.unique`: append each name not already collected. -/
def uniqueAux : List String → List Package → List String
  | acc, [] => acc
  | acc, p :: ps =>
    if p.name ∈ acc then uniqueAux acc ps else uniqueAux (acc ++ [p.name]) ps

/-- `PkgList.unique`: the distinct names, in first-occurrence order. -/
def unique (l : List Package) : List String :=
  uniqueAux [] l

/-- `PkgList.get_by_name`. -/
def get_by_name (l : List PkgFile) (name : String) : List PkgFile :=
  l.filter (fun p => p.name == name)

/-- The sort key `attrgetter("name", "version", "pkg_version")`. -/
def sortKey (p : PkgFile) : String × String × String :=
  (p.name, p.version, p.pkg_version)

/-- Python tuple `<` on the sort keys: strict lexicographic comparison of
`name`, then `version`, then `pkg_version`, as plain strings. -/
def keyLt (a b : PkgFile) : Bool :=
  if a.name = b.name then
    if a.version = b.version then pyStrLt a.pkg_version b.pkg_version
    else pyStrLt a.version b.version
  else pyStrLt a.name b.name

/-- Insert before the first element that is not strictly below `x`, which
keeps the stability of Python's `sorted`. -/
def insertK (x : PkgFile) : List PkgFile → List PkgFile
  | [] => [x]
  | y :: ys => if keyLt y x then y :: insertK x ys else x :: y :: ys

/-- `sorted(l, key=attrgetter("name", "version", "pkg_version"))` as a stable
insertion sort. -/
def sortPkgs : List PkgFile → List PkgFile
  | [] => []
  | x :: xs => insertK x (sortPkgs xs)

/-- Python `l[0:-n]` for `n ≥ 0`: when `n = 0` the slice is `l[0:0] = []`
because `-0 == 0`; otherwise all but the last `n` elements. -/
def pySliceDropLast (l : List PkgFile) (n : Nat) : List PkgFile :=
  if n = 0 then [] else l.take (l.length - n)

/-- `older_than(pkgfiles, installed, number)`: for each distinct installed
name, gather its cache entries; when there are more than `number`, sort them
and append the slice `[0:-number]`. -/
def older_than (pkgfiles : List PkgFile) (installed : List InstalledPkg)
    (number : Nat) : List PkgFile :=
  (unique installed).flatMap (fun p =>
    let full_list := get_by_name pkgfiles p
    if number < full_list.length then
      let excess := pySliceDropLast (sortPkgs full_list) number
      if 0 < excess.length then excess else []
    else [])

/-- `uninstalled_packages(pkgfiles, installed)`: the cache entries whose name
is not among the installed names. -/
def uninstalled_packages (pkgfiles : List PkgFile) (installed : List InstalledPkg) :
    List PkgFile :=
  pkgfiles.filter (fun f => !(names installed).contains f.name)

/-- `find_files(packages, pkgfiles)`: for each given identity, every cache
entry equal to it under `Package.__eq__`. -/
def find_files (packages : List Package) (pkgfiles : List PkgFile) : List PkgFile :=
  packages.flatMap (fun p => pkgfiles.filter (fun f => pkgEq f.toPackage p))

/-- Outcome of one `os.remove` call on a selected file. -/
inductive DelOutcome
  | ok
  | missingFile
  | permDenied
deriving DecidableEq, Repr

/-- `remove_packages`: walk the selected files in order. A successful
`os.remove` deletes the file and the loop continues; `OSError` with
`EACCES` prints a hint and calls `exit()` (second component `true`, nothing
after it is touched); any other `OSError` — in particular `ENOENT` for a file
that vanished — is caught and ignored, and the loop continues. Returns the
deleted files in order and whether the run was terminated early. -/
def remove_packages : List (PkgFile × DelOutcome) → List PkgFile × Bool
  | [] => ([], false)
  | (f, DelOutcome.ok) :: rest =>
    let r := remove_packages rest
    (f :: r.1, r.2)
  | (_, DelOutcome.missingFile) :: rest => remove_packages rest
  | (_, DelOutcome.permDenied) :: _ => ([], true)

/-! Concrete example values used by several theorems below. -/

/-- An installed `vim` record. -/
def vimPkg : InstalledPkg :=
  { name := "vim", version := "9.0", pkg_version := "1", arch := "x86_64" }

/-- The cache file matching `vimPkg`. -/
def vimFile : PkgFile :=
  { toPackage := vimPkg, filename := "vim-9.0-1-x86_64.pkg.tar.xz",
    fullpath := "/var/cache/pacman/pkg/vim-9.0-1-x86_64.pkg.tar.xz",
    file_ext := "pkg.tar.xz" }

/-- An installed `curl` record. -/
def curlPkg : InstalledPkg :=
  { name := "curl", version := "7.81.0", pkg_version := "1", arch := "x86_64" }

/-- A cached `curl` archive, version 7.79.0. -/
def curlFile79 : PkgFile :=
  { name := "curl", version := "7.79.0", pkg_version := "1", arch := "x86_64",
    filename := "curl-7.79.0-1-x86_64.pkg.tar.xz",
    fullpath := "/var/cache/pacman/pkg/curl-7.79.0-1-x86_64.pkg.tar.xz",
    file_ext := "pkg.tar.xz" }

/-- A cached `curl` archive, version 7.80.0. -/
def curlFile80 : PkgFile :=
  { name := "curl", version := "7.80.0", pkg_version := "1", arch := "x86_64",
    filename := "curl-7.80.0-1-x86_64.pkg.tar.xz",
    fullpath := "/var/cache/pacman/pkg/curl-7.80.0-1-x86_64.pkg.tar.xz",
    file_ext := "pkg.tar.xz" }

/-- A cached `curl` archive, version 7.81.0. -/
def curlFile81 : PkgFile :=
  { name := "curl", version := "7.81.0", pkg_version := "1", arch := "x86_64",
    filename := "curl-7.81.0-1-x86_64.pkg.tar.xz",
    fullpath := "/var/cache/pacman/pkg/curl-7.81.0-1-x86_64.pkg.tar.xz",
    file_ext := "pkg.tar.xz" }

/-- A `wget` archive cached under the `.pkg.tar.xz` extension. -/
def wgetFileXz : PkgFile :=
  { name := "wget", version := "1.2", pkg_version := "1", arch := "any",
    filename := "wget-1.2-1-any.pkg.tar.xz",
    fullpath := "/var/cache/pacman/pkg/wget-1.2-1-any.pkg.tar.xz",
    file_ext := "pkg.tar.xz" }

/-- The same `wget` package cached under the `.pkg.tar.gzip` extension:
identical identity fields, different file. -/
def wgetFileGz : PkgFile :=
  { name := "wget", version := "1.2", pkg_version := "1", arch := "any",
    filename := "wget-1.2-1-any.pkg.tar.gzip",
    fullpath := "/var/cache/pacman/pkg/wget-1.2-1-any.pkg.tar.gzip",
    file_ext := "pkg.tar.gzip" }

/-- What `PkgFile.__init__` actually produces for the spec's example filename
`foo-bar-1.0-3.any.pkg.tar.xz`. -/
def c3Actual : PkgFile :=
  { name := "foo", version := "bar", pkg_version := "1.0", arch := "3",
    filename := "foo-bar-1.0-3.any.pkg.tar.xz",
    fullpath := "/var/cache/pacman/pkg/foo-bar-1.0-3.any.pkg.tar.xz",
    file_ext := "any.pkg.tar.xz" }

/-- The parse of the conventional four-hyphen-field form of that filename. -/
def c3Conventional : PkgFile :=
  { name := "foo-bar", version := "1.0", pkg_version := "3", arch := "any",
    filename := "foo-bar-1.0-3-any.pkg.tar.xz",
    fullpath := "/var/cache/pacman/pkg/foo-bar-1.0-3-any.pkg.tar.xz",
    file_ext := "pkg.tar.xz" }

/-- Replace only the `arch` field of a cache entry, possibly depending on the
entry itself. -/
def setArch (f : PkgFile → String) (p : PkgFile) : PkgFile :=
  { p with toPackage := { p.toPackage with arch := f p } }

/-! Helper lemmas shared by several proofs. -/

/-- `Package.__eq__` unfolded to the four field equations. -/
theorem pkgEq_iff (a b : Package) :
    pkgEq a b = true ↔
      a.name = b.name ∧ a.version = b.version ∧
        a.pkg_version = b.pkg_version ∧ a.arch = b.arch := by
  simp [pkgEq, and_assoc]

/-- `Package.__eq__` is symmetric. -/
theorem pkgEq_comm (a b : Package) : pkgEq a b = pkgEq b a := by
  rw [Bool.eq_iff_iff, pkgEq_iff, pkgEq_iff]
  constructor <;> exact fun ⟨h1, h2, h3, h4⟩ => ⟨h1.symm, h2.symm, h3.symm, h4.symm⟩

/-- Characters with equal code points are equal. -/
theorem char_toNat_inj {a b : Char} (h : a.toNat = b.toNat) : a = b :=
  Char.eq_of_val_eq (UInt32.eq_of_toBitVec_eq (BitVec.eq_of_toNat_eq h))

/-- The code-point order is irreflexive. -/
theorem strLtB_self (l : List Char) : strLtB l l = false := by
  induction l with
  | nil => rfl
  | cons a as ih => simp [strLtB, ih]

/-- For distinct character lists, exactly one direction of the code-point
order holds. -/
theorem strLtB_xor (as : List Char) : ∀ bs : List Char, as ≠ bs →
    (strLtB as bs = true ∧ strLtB bs as = false) ∨
    (strLtB as bs = false ∧ strLtB bs as = true) := by
  induction as with
  | nil =>
    intro bs hne
    cases bs with
    | nil => exact absurd rfl hne
    | cons b bs => exact Or.inl ⟨rfl, rfl⟩
  | cons a as ih =>
    intro bs hne
    cases bs with
    | nil => exact Or.inr ⟨rfl, rfl⟩
    | cons b bs =>
      by_cases hab : a.toNat = b.toNat
      · have hb : a = b := char_toNat_inj hab
        subst hb
        have hne' : as ≠ bs := fun h2 => hne (by rw [h2])
        rcases ih bs hne' with ⟨h1, h2⟩ | ⟨h1, h2⟩
        · exact Or.inl ⟨by simp [strLtB, h1], by simp [strLtB, h2]⟩
        · exact Or.inr ⟨by simp [strLtB, h1], by simp [strLtB, h2]⟩
      · by_cases hlt : a.toNat < b.toNat
        · refine Or.inl ⟨by simp [strLtB, hab, hlt], ?_⟩
          have h1 : ¬ b.toNat = a.toNat := fun h2 => hab h2.symm
          have h2 : ¬ b.toNat < a.toNat := by omega
          simp [strLtB, h1, h2]
        · have hgt : b.toNat < a.toNat := by omega
          refine Or.inr ⟨by simp [strLtB, hab, hlt], ?_⟩
          have h1 : ¬ b.toNat = a.toNat := fun h2 => hab h2.symm
          simp [strLtB, h1, hgt]

/-- For distinct strings, exactly one direction of Python `<` holds. -/
theorem pyStrLt_xor (s t : String) (h : s ≠ t) :
    (pyStrLt s t = true ∧ pyStrLt t s = false) ∨
    (pyStrLt s t = false ∧ pyStrLt t s = true) :=
  strLtB_xor s.data t.data (fun hd => h (String.ext hd))

/-- Python `<` is irreflexive on strings. -/
theorem pyStrLt_self (s : String) : pyStrLt s s = false :=
  strLtB_self s.data

/-- The tuple comparison reads only the three key fields, so changing
architectures does not affect it. -/
theorem keyLt_setArch (f : PkgFile → String) (a b : PkgFile) :
    keyLt (setArch f a) (setArch f b) = keyLt a b := rfl

/-- Stable insertion commutes with an arch-only rewrite of the entries. -/
theorem insertK_setArch (f : PkgFile → String) (x : PkgFile) (l : List PkgFile) :
    insertK (setArch f x) (l.map (setArch f)) = (insertK x l).map (setArch f) := by
  induction l with
  | nil => rfl
  | cons y ys ih =>
    simp only [List.map_cons, insertK, keyLt_setArch]
    by_cases hc : keyLt y x = true
    · simp [hc, ih]
    · simp [hc]

/-- Sorting commutes with an arch-only rewrite of the entries. -/
theorem sortPkgs_setArch (f : PkgFile → String) (l : List PkgFile) :
    sortPkgs (l.map (setArch f)) = (sortPkgs l).map (setArch f) := by
  induction l with
  | nil => rfl
  | cons x xs ih => simp only [List.map_cons, sortPkgs, ih, insertK_setArch]

/-- A filename with fewer than three hyphens right-splits into fewer than
four fields, so `PkgFile.__init__`'s unpacking raises. -/
theorem mkPkgFile_eq_none_of_few_hyphens (f path : String)
    (h : (pySplit f '-').length < 4) : mkPkgFile f path = none := by
  rcases hp : pySplit f '-' with _ | ⟨a, _ | ⟨b, _ | ⟨c, _ | ⟨d, tl⟩⟩⟩⟩
  · simp [mkPkgFile, pyRsplit, hp]
  · simp [mkPkgFile, pyRsplit, hp]
  · simp [mkPkgFile, pyRsplit, hp]
  · simp [mkPkgFile, pyRsplit, hp]
  · rw [hp] at h
    simp only [List.length_cons] at h
    omega

/-- `PkgFileList` construction aborts as soon as one kept filename fails to
parse. -/
theorem buildAll_eq_none (path : String) (fs : List String) (f : String)
    (hmem : f ∈ fs) (hf : mkPkgFile f path = none) : buildAll path fs = none := by
  induction fs with
  | nil => cases hmem
  | cons a fs ih =>
    rcases List.mem_cons.mp hmem with h1 | h2
    · subst h1; simp [buildAll, hf]
    · cases hma : mkPkgFile a path with
      | none => simp [buildAll, hma]
      | some p => simp [buildAll, hma, ih h2]

/-- `list.index` returns the position of the first occurrence. -/
theorem pyIndex_of_first (x : String) (l : List String) (i : Nat)
    (h1 : l[i]? = some x) (h2 : ∀ m, m < i → l[m]? ≠ some x) :
    pyIndex x l = some i := by
  induction l generalizing i with
  | nil => simp at h1
  | cons y ys ih =>
    by_cases hy : y = x
    · subst hy
      cases i with
      | zero => simp [pyIndex]
      | succ j =>
        exact absurd (show (y :: ys)[0]? = some y by simp)
          (h2 0 (Nat.succ_pos j))
    · cases i with
      | zero =>
        rw [List.getElem?_cons_zero] at h1
        exact absurd (Option.some.inj h1) hy
      | succ j =>
        have h1' : ys[j]? = some x := by
          rw [List.getElem?_cons_succ] at h1; exact h1
        have h2' : ∀ m, m < j → ys[m]? ≠ some x := by
          intro m hm
          have := h2 (m + 1) (Nat.succ_lt_succ hm)
          rw [List.getElem?_cons_succ] at this
          exact this
        simp [pyIndex, hy, ih j h1' h2']

/-! Theorems for the claims. -/

/-- Claim C1 (code divergence at `keep = 0`): `vim` is installed and has
exactly one cache entry, so with `keep = 0` the claim demands
`max(0, 1 - 0) = 1` selected entry; but `older_than` evaluates the Python
slice `full_list[0:-0] = full_list[0:0] = []` and returns no entry at all. -/
theorem older_than_keep_zero_count :
    vimPkg.name ∈ names [vimPkg] ∧
    (get_by_name [vimFile] "vim").length = 1 ∧
    older_than [vimFile] [vimPkg] 0 = [] := by
  decide

/-- Claim C2 (code divergence at `keep = 0`): every entry of the `curl` cache
bears an installed name, so the claim demands that `keep = 0` select all of
them; but `older_than` returns the empty list, because the Python slice
`full_list[0:-0]` is empty. -/
theorem older_than_keep_zero_drops_nothing :
    names [curlPkg] = ["curl"] ∧
    (∀ f ∈ [curlFile79, curlFile80, curlFile81], f.name = "curl") ∧
    older_than [curlFile79, curlFile80, curlFile81] [curlPkg] 0 = [] := by
  decide

/-- Claim C3, refuted: the filename `foo-bar-1.0-3.any.pkg.tar.xz` does not
parse to name `foo-bar`, version `1.0`, release `3`, arch `any`; the code
right-splits at the three last hyphens, yielding name `foo`, version `bar`,
release `1.0`, arch `3`. -/
theorem mkPkgFile_example_refuted :
    mkPkgFile "foo-bar-1.0-3.any.pkg.tar.xz" "/var/cache/pacman/pkg" =
      some c3Actual ∧
    c3Actual.name ≠ "foo-bar" ∧ c3Actual.version ≠ "1.0" ∧
    c3Actual.pkg_version ≠ "3" ∧ c3Actual.arch ≠ "any" := by
  decide

/-- Claim C3, amended: the filename is right-split into four hyphen-delimited
fields — name (which may itself contain hyphens), version, release number,
and `arch.extension`, the last split at its first dot. So
`foo-bar-1.0-3.any.pkg.tar.xz` parses to (`foo`, `bar`, `1.0`, arch `3`),
while the conventional `foo-bar-1.0-3-any.pkg.tar.xz` parses to (`foo-bar`,
`1.0`, `3`, arch `any`). -/
theorem mkPkgFile_right_split :
    mkPkgFile "foo-bar-1.0-3.any.pkg.tar.xz" "/var/cache/pacman/pkg" =
      some c3Actual ∧
    mkPkgFile "foo-bar-1.0-3-any.pkg.tar.xz" "/var/cache/pacman/pkg" =
      some c3Conventional := by
  decide

/-- Claim C4: a cache entry appears in `uninstalled_packages` exactly when it
is an entry of the cache whose name is not among the installed names; the
stated soundness and exhaustiveness directions are the two halves of the
equivalence. -/
theorem uninstalled_packages_iff (pkgfiles : List PkgFile)
    (installed : List InstalledPkg) (e : PkgFile) :
    e ∈ uninstalled_packages pkgfiles installed ↔
      e ∈ pkgfiles ∧ e.name ∉ names installed := by
  simp [uninstalled_packages, List.mem_filter]

/-- Claim C9: inside `remove_packages`, a missing file (`ENOENT`) anywhere in
the list is a non-fatal no-op — the run behaves as if the entry were not
there — while a permission failure (`EACCES`) terminates the run at once:
only the successful deletions before it happen, and nothing after it is
attempted. -/
theorem remove_packages_outcomes (xs ys : List (PkgFile × DelOutcome))
    (f : PkgFile) (h : ∀ e ∈ xs, e.2 ≠ DelOutcome.permDenied) :
    remove_packages (xs ++ (f, DelOutcome.missingFile) :: ys) =
      remove_packages (xs ++ ys) ∧
    remove_packages (xs ++ (f, DelOutcome.permDenied) :: ys) =
      ((xs.filter (fun e => e.2 == DelOutcome.ok)).map Prod.fst, true) := by
  induction xs with
  | nil => simp [remove_packages]
  | cons a xs ih =>
    obtain ⟨g, o⟩ := a
    have ho : o ≠ DelOutcome.permDenied := h (g, o) (List.mem_cons_self _ _)
    have h' : ∀ e ∈ xs, e.2 ≠ DelOutcome.permDenied :=
      fun e he => h e (List.mem_cons_of_mem _ he)
    cases o with
    | ok =>
      obtain ⟨ih1, ih2⟩ := ih h'
      constructor
      · simp only [List.cons_append, remove_packages, List.append_eq, ih1]
      · simp only [List.cons_append, remove_packages, List.append_eq, ih2,
          List.filter_cons, beq_self_eq_true, if_true, List.map_cons]
    | missingFile =>
      simpa [remove_packages, List.filter_cons] using ih h'
    | permDenied => exact absurd rfl ho

/-- Witness for claim C9's theorem at a concrete three-file run. -/
theorem remove_packages_outcomes_witness :
    remove_packages ([(curlFile79, DelOutcome.ok)] ++
        (curlFile80, DelOutcome.missingFile) :: [(curlFile81, DelOutcome.ok)]) =
      remove_packages ([(curlFile79, DelOutcome.ok)] ++ [(curlFile81, DelOutcome.ok)]) ∧
    remove_packages ([(curlFile79, DelOutcome.ok)] ++
        (curlFile80, DelOutcome.permDenied) :: [(curlFile81, DelOutcome.ok)]) =
      ((([(curlFile79, DelOutcome.ok)]).filter
          (fun e => e.2 == DelOutcome.ok)).map Prod.fst, true) :=
  remove_packages_outcomes [(curlFile79, DelOutcome.ok)]
    [(curlFile81, DelOutcome.ok)] curlFile80 (by decide)

/-- Claim C10: membership in `find_files` is exactly membership in the cache
together with identity-equality (`Package.__eq__`, the four identity fields)
to some requested identity; and since the filename and extension are not part
of that equality, a single identity can resolve to several distinct files. -/
theorem find_files_characterization :
    (∀ (ps : List Package) (pkgfiles : List PkgFile) (e : PkgFile),
      e ∈ find_files ps pkgfiles ↔
        e ∈ pkgfiles ∧ ∃ p ∈ ps, pkgEq e.toPackage p = true) ∧
    (find_files [wgetFileXz.toPackage] [wgetFileXz, wgetFileGz] =
        [wgetFileXz, wgetFileGz] ∧
      wgetFileXz.filename ≠ wgetFileGz.filename) := by
  refine ⟨fun ps pkgfiles e => ?_, by decide, by decide⟩
  simp only [find_files, List.mem_flatMap, List.mem_filter]
  tauto

/-- A package used in the claim C5 analysis. -/
def pkgAnyArch : Package :=
  { name := "pkg", version := "1.0", pkg_version := "1", arch := "any" }

/-- The same identity as `pkgAnyArch` apart from the architecture. -/
def pkgX64Arch : Package :=
  { name := "pkg", version := "1.0", pkg_version := "1", arch := "x86_64" }

/-- A package above `pkgAnyArch` in release number. -/
def pkgRel2 : Package :=
  { name := "pkg", version := "1.0", pkg_version := "2", arch := "any" }

/-- Claim C5, refuted at concrete inputs: comparing a package with itself
raises (`__lt__` executes `return false` with `false` an unbound name, so
`a < a` is an error, not `False`), and two unequal packages differing only in
`arch` satisfy neither `a < b` nor `b < a`; so the operators are not a strict
total order consistent with equality. -/
theorem pkgLt_not_total_counterexample :
    pkgLt pkgAnyArch pkgAnyArch = none ∧
    pkgEq pkgAnyArch pkgX64Arch = false ∧
    pkgLt pkgAnyArch pkgX64Arch = some false ∧
    pkgLt pkgX64Arch pkgAnyArch = some false := by decide

/-- Claim C5, amended: `__eq__` is reflexive, symmetric and transitive;
on equal values `__lt__` raises an error instead of returning `False` (while
`__gt__` does return `False`, because `__le__` short-circuits); for unequal
values that differ in at least one of name, version, release number, exactly
one of `a < b`, `b < a` holds; unequal values differing only in architecture
are mutually incomparable. -/
theorem pkg_order_amended (a b c : Package) :
    pkgEq a a = true ∧
    (pkgEq a b = true → pkgEq b a = true) ∧
    (pkgEq a b = true → pkgEq b c = true → pkgEq a c = true) ∧
    (pkgEq a b = true → pkgLt a b = none ∧ pkgGt a b = some false) ∧
    (pkgEq a b = false →
      ((a.name ≠ b.name ∨ a.version ≠ b.version ∨ a.pkg_version ≠ b.pkg_version) →
        ((pkgLt a b = some true ∧ pkgLt b a = some false) ∨
         (pkgLt a b = some false ∧ pkgLt b a = some true))) ∧
      (a.name = b.name → a.version = b.version → a.pkg_version = b.pkg_version →
        pkgLt a b = some false ∧ pkgLt b a = some false)) := by
  refine ⟨(pkgEq_iff a a).mpr ⟨rfl, rfl, rfl, rfl⟩, ?_, ?_, ?_, ?_⟩
  · intro h
    obtain ⟨h1, h2, h3, h4⟩ := (pkgEq_iff a b).mp h
    exact (pkgEq_iff b a).mpr ⟨h1.symm, h2.symm, h3.symm, h4.symm⟩
  · intro hab hbc
    obtain ⟨h1, h2, h3, h4⟩ := (pkgEq_iff a b).mp hab
    obtain ⟨g1, g2, g3, g4⟩ := (pkgEq_iff b c).mp hbc
    exact (pkgEq_iff a c).mpr ⟨h1.trans g1, h2.trans g2, h3.trans g3, h4.trans g4⟩
  · intro h
    exact ⟨by simp [pkgLt, h], by simp [pkgGt, pkgLe, h]⟩
  · intro h
    have hba : pkgEq b a = false := pkgEq_comm a b ▸ h
    constructor
    · intro hdiff
      by_cases hn : a.name = b.name
      · by_cases hv : a.version = b.version
        · by_cases hp : a.pkg_version = b.pkg_version
          · rcases hdiff with hd | hd | hd
            · exact absurd hn hd
            · exact absurd hv hd
            · exact absurd hp hd
          · rcases pyStrLt_xor a.pkg_version b.pkg_version hp with ⟨h1, h2⟩ | ⟨h1, h2⟩
            · exact Or.inl ⟨by simp [pkgLt, h, hn, hv, h1],
                by simp [pkgLt, hba, hn.symm, hv.symm, h2]⟩
            · exact Or.inr ⟨by simp [pkgLt, h, hn, hv, h1],
                by simp [pkgLt, hba, hn.symm, hv.symm, h2]⟩
        · rcases pyStrLt_xor a.version b.version hv with ⟨h1, h2⟩ | ⟨h1, h2⟩
          · exact Or.inl ⟨by simp [pkgLt, h, hn, hv, h1],
              by simp [pkgLt, hba, hn.symm, Ne.symm hv, h2]⟩
          · exact Or.inr ⟨by simp [pkgLt, h, hn, hv, h1],
              by simp [pkgLt, hba, hn.symm, Ne.symm hv, h2]⟩
      · rcases pyStrLt_xor a.name b.name hn with ⟨h1, h2⟩ | ⟨h1, h2⟩
        · exact Or.inl ⟨by simp [pkgLt, h, hn, h1],
            by simp [pkgLt, hba, Ne.symm hn, h2]⟩
        · exact Or.inr ⟨by simp [pkgLt, h, hn, h1],
            by simp [pkgLt, hba, Ne.symm hn, h2]⟩
    · intro hn hv hp
      exact ⟨by simp [pkgLt, h, hn, hv, hp, pyStrLt_self],
        by simp [pkgLt, hba, hn.symm, hv.symm, hp.symm, pyStrLt_self]⟩

/-- Witness for claim C5's amended theorem at concrete packages. -/
theorem pkg_order_amended_witness :
    pkgEq pkgAnyArch pkgAnyArch = true ∧
    (pkgLt pkgAnyArch pkgAnyArch = none ∧ pkgGt pkgAnyArch pkgAnyArch = some false) ∧
    ((pkgLt pkgAnyArch pkgRel2 = some true ∧ pkgLt pkgRel2 pkgAnyArch = some false) ∨
     (pkgLt pkgAnyArch pkgRel2 = some false ∧ pkgLt pkgRel2 pkgAnyArch = some true)) ∧
    (pkgLt pkgAnyArch pkgX64Arch = some false ∧ pkgLt pkgX64Arch pkgAnyArch = some false) :=
  ⟨(pkg_order_amended pkgAnyArch pkgAnyArch pkgAnyArch).1,
   (pkg_order_amended pkgAnyArch pkgAnyArch pkgAnyArch).2.2.2.1 (by decide),
   ((pkg_order_amended pkgAnyArch pkgRel2 pkgAnyArch).2.2.2.2 (by decide)).1
     (by decide),
   ((pkg_order_amended pkgAnyArch pkgX64Arch pkgAnyArch).2.2.2.2 (by decide)).2
     (by decide) (by decide) (by decide)⟩

/-- Claim C6: `Package.__eq__` holds exactly when all four identity fields
agree, while the sort order compares only name, version and release number:
rewriting the architectures of the entries (element by element, arbitrarily)
commutes with sorting, so architecture never influences the sort order. -/
theorem pkgEq_fields_and_sort_ignores_arch :
    (∀ a b : Package, pkgEq a b = true ↔
      a.name = b.name ∧ a.version = b.version ∧
        a.pkg_version = b.pkg_version ∧ a.arch = b.arch) ∧
    (∀ (f : PkgFile → String) (a b : PkgFile),
      keyLt (setArch f a) (setArch f b) = keyLt a b) ∧
    (∀ (f : PkgFile → String) (l : List PkgFile),
      sortPkgs (l.map (setArch f)) = (sortPkgs l).map (setArch f)) :=
  ⟨pkgEq_iff, keyLt_setArch, sortPkgs_setArch⟩

/-- Claim C7: when each of the `%NAME%`, `%VERSION%` and `%ARCH%` markers
first occurs at a position followed by a value line, the installed record's
fields are exactly those following lines, with the version value (holding a
single hyphen) split into version and release number. -/
theorem parseDesc_takes_following_lines (lines : List String)
    (i j k : Nat) (nm vv vr rel ar : String)
    (hni : lines[i]? = some "%NAME%")
    (hn1 : ∀ m, m < i → lines[m]? ≠ some "%NAME%")
    (hnv : lines[i + 1]? = some nm)
    (hvi : lines[j]? = some "%VERSION%")
    (hv1 : ∀ m, m < j → lines[m]? ≠ some "%VERSION%")
    (hvv : lines[j + 1]? = some vv)
    (hai : lines[k]? = some "%ARCH%")
    (ha1 : ∀ m, m < k → lines[m]? ≠ some "%ARCH%")
    (hav : lines[k + 1]? = some ar)
    (hsplit : pySplit vv '-' = [vr, rel]) :
    parseDesc lines =
      some { name := nm, version := vr, pkg_version := rel, arch := ar } := by
  have e1 := pyIndex_of_first "%NAME%" lines i hni hn1
  have e2 := pyIndex_of_first "%VERSION%" lines j hvi hv1
  have e3 := pyIndex_of_first "%ARCH%" lines k hai ha1
  simp [parseDesc, e1, e2, e3, hnv, hvv, hav, mkInstalledPkg, hsplit]

/-- Witness for claim C7's theorem: the spec's concrete metadata lines parse
to the `curl` record. -/
theorem parseDesc_takes_following_lines_witness :
    parseDesc ["%NAME%", "curl", "%VERSION%", "7.80.0-1", "%ARCH%", "x86_64"] =
      some { name := "curl", version := "7.80.0", pkg_version := "1",
             arch := "x86_64" } :=
  parseDesc_takes_following_lines
    ["%NAME%", "curl", "%VERSION%", "7.80.0-1", "%ARCH%", "x86_64"]
    0 2 4 "curl" "7.80.0-1" "7.80.0" "1" "x86_64"
    (by decide) (by intro m hm; exact absurd hm (Nat.not_lt_zero m)) (by decide)
    (by decide) (by intro m hm; interval_cases m <;> decide) (by decide)
    (by decide) (by intro m hm; interval_cases m <;> decide) (by decide)
    (by decide)

/-- Claim C8: a directory entry that ends in a recognized archive extension
but has fewer than three hyphens (so fewer than the four hyphen-delimited
fields the grammar needs) makes the whole cache-catalog construction fail,
rather than being skipped. -/
theorem pkgFileList_aborts_on_malformed (files : List String) (path f : String)
    (hmem : f ∈ files)
    (hext : EXTENSIONS.any (fun e => pyEndsWith f e) = true)
    (hseg : (pySplit f '-').length < 4) :
    pkgFileList files path = none := by
  have hf : mkPkgFile f path = none := mkPkgFile_eq_none_of_few_hyphens f path hseg
  have hmem' : f ∈ files.filter (fun g => EXTENSIONS.any (fun e => pyEndsWith g e)) :=
    List.mem_filter.mpr ⟨hmem, hext⟩
  exact buildAll_eq_none path _ f hmem' hf

/-- Witness for claim C8's theorem: a hyphen-free archive filename aborts the
catalog. -/
theorem pkgFileList_aborts_witness :
    pkgFileList ["foo.pkg.tar.xz"] "/var/cache/pacman/pkg" = none :=
  pkgFileList_aborts_on_malformed ["foo.pkg.tar.xz"] "/var/cache/pacman/pkg"
    "foo.pkg.tar.xz" (by decide) (by decide) (by decide)

end Pacleaner
